import Mathlib

/-!
Shallow embedding of the YouTube comment scraper
(`youtube_with_replies.py`): the ISO-8601 duration parser, video
discovery and enrichment, the hierarchical comment retriever and the
collection orchestrator, together with theorems about the properties
the specification states.
-/

/-! ## Duration parser (`parse_duration`) -/

/-- Numeric value of a digit string, most significant digit first
(the value `int(...)` computes on a regex group of digits). -/
def digitsToNat (ds : List Char) : Nat :=
  ds.foldl (fun n c => n * 10 + (c.toNat - 48)) 0

/-- One optional component `(?:(\d+)U)?` of the duration regex: greedily
take digits; if they are non-empty and followed by the unit letter `u`,
consume them and return their value, otherwise consume nothing. -/
def parseComp (u : Char) (s : List Char) : Nat × List Char :=
  let ds := s.takeWhile (fun c => c.isDigit)
  match s.dropWhile (fun c => c.isDigit) with
  | c :: rest => if ds ≠ [] ∧ c = u then (digitsToNat ds, rest) else (0, s)
  | [] => (0, s)

/-- `re.match(r"PT(?:(\d+)H)?(?:(\d+)M)?(?:(\d+)S)?", s)` followed by
`hours * 3600 + minutes * 60 + seconds`; no match (including the empty
string, which the source rejects up front) gives 0. -/
def parseDurationChars : List Char → Nat
  | 'P' :: 'T' :: rest =>
    let hr := parseComp 'H' rest
    let mr := parseComp 'M' hr.2
    let sr := parseComp 'S' mr.2
    hr.1 * 3600 + mr.1 * 60 + sr.1
  | _ => 0

/-- `parse_duration` from the source: convert an ISO-8601 duration token
to seconds. -/
def parse_duration (s : String) : Nat := parseDurationChars s.data

/-! ## Data model of the retriever's input -/

/-- A reply as returned by the remote API, inline in a thread item or by
the reply-listing endpoint: its `id` and its `snippet` fields. -/
structure ReplySnippet where
  id : String
  author : String
  text : String
  likeCount : Nat
  publishedAt : String
deriving DecidableEq, Repr

/-- One item of a `commentThreads().list` response: the thread id (used
as the top-level comment's id), the top-level comment's snippet fields,
the inline reply page (`none` when the `replies` key is absent), and
`totalReplyCount`. -/
structure ThreadItem where
  id : String
  topAuthor : String
  topText : String
  topLikeCount : Nat
  topPublishedAt : String
  replies : Option (List ReplySnippet)
  totalReplyCount : Nat
deriving DecidableEq, Repr

/-- A comment dictionary as built by `get_video_comments`. -/
structure Comment where
  video_id : String
  comment_id : String
  parent_id : Option String
  is_reply : Bool
  author : String
  comment_text : String
  comment_like_count : Nat
  comment_published_at : String
deriving DecidableEq, Repr

/-- The pages the reply-listing endpoint yields for one parent, and
whether an `HttpError` occurs when fetching the page after them. -/
structure ReplyFetch where
  pages : List (List ReplySnippet)
  err : Bool

/-- The remote data one `get_video_comments` call sees: the thread-listing
pages, whether an `HttpError` occurs when fetching the page after them,
and the reply-listing endpoint keyed by parent id. -/
structure VideoCommentSource where
  threadPages : List (List ThreadItem)
  threadErr : Bool
  replyFetch : String → ReplyFetch

/-! ## The hierarchical comment retriever (`get_video_comments`) -/

/-- The top-level comment record built from a thread item
(`parent_id = None`, `is_reply = False`). -/
def topComment (vid : String) (it : ThreadItem) : Comment :=
  { video_id := vid, comment_id := it.id, parent_id := none, is_reply := false,
    author := it.topAuthor, comment_text := it.topText,
    comment_like_count := it.topLikeCount,
    comment_published_at := it.topPublishedAt }

/-- A reply record (`parent_id` = enclosing thread id, `is_reply = True`);
the same shape is used for inline and supplementally fetched replies. -/
def replyComment (vid parent : String) (r : ReplySnippet) : Comment :=
  { video_id := vid, comment_id := r.id, parent_id := some parent, is_reply := true,
    author := r.author, comment_text := r.text,
    comment_like_count := r.likeCount, comment_published_at := r.publishedAt }

/-- `any(c["comment_id"] == reply_id for c in comments)`. -/
def hasId (cs : List Comment) (i : String) : Bool :=
  cs.any (fun c => c.comment_id = i)

/-- Appending one supplementally fetched reply: skipped when its id is
already among the collected comments. -/
def addSupplementalReply (vid parent : String) (cs : List Comment)
    (r : ReplySnippet) : List Comment :=
  if hasId cs r.id then cs else cs ++ [replyComment vid parent r]

/-- Walking all reply-listing pages for one parent, appending each not
yet seen reply. -/
def processReplyPages (vid parent : String) (pages : List (List ReplySnippet))
    (cs : List Comment) : List Comment :=
  pages.foldl (fun acc page => page.foldl (addSupplementalReply vid parent) acc) cs

/-- `total_reply_count > fetched_replies`: the condition under which the
source issues a reply-listing request for a thread. -/
def needsSupplemental (it : ThreadItem) : Bool :=
  decide ((it.replies.getD []).length < it.totalReplyCount)

/-- Processing one thread item: emit the top-level comment, then the
inline replies, then (when `totalReplyCount` exceeds the inline count)
walk the reply-listing pages; the second state component records which
parents had a reply-listing request issued. -/
def processItem (rf : String → ReplyFetch) (vid : String)
    (st : List Comment × List String) (it : ThreadItem) :
    List Comment × List String :=
  let cs := st.1 ++ [topComment vid it]
      ++ (it.replies.getD []).map (replyComment vid it.id)
  if needsSupplemental it then
    (processReplyPages vid it.id (rf it.id).pages cs, st.2 ++ [it.id])
  else
    (cs, st.2)

/-- Processing a list of thread items in order. -/
def processItems (rf : String → ReplyFetch) (vid : String)
    (st : List Comment × List String) (its : List ThreadItem) :
    List Comment × List String :=
  its.foldl (processItem rf vid) st

/-- `get_video_comments`: walk the thread pages; on an `HttpError` while
paging (modelled as `threadErr`, occurring after the listed pages) the
source returns `[]`, discarding the collected list. The second component
is the log of parents for which a reply-listing request was issued. -/
def get_video_comments (src : VideoCommentSource) (vid : String) :
    List Comment × List String :=
  let st := src.threadPages.foldl
    (fun st page => page.foldl (processItem src.replyFetch vid) st) ([], [])
  if src.threadErr then ([], st.2) else st

/-! ## Video discovery and enrichment (`search_videos`, `get_video_details`) -/

/-- One item of a search response: the fields `search_videos` reads. -/
structure SearchItem where
  videoId : String
  title : String
  channelTitle : String
  publishedAt : String
deriving DecidableEq, Repr

/-- The detail record `get_video_details` builds per video id. -/
structure VideoDetail where
  view_count : Nat
  like_count : Nat
  comment_count : Nat
  duration : Nat
  description : String
deriving DecidableEq, Repr

/-- A video dictionary as built by `search_videos`: the stub fields plus
the enrichment detail when the id was present in the detail mapping
(`video.update(details[vid_id])` guarded by `if vid_id in details`). -/
structure Video where
  video_id : String
  relevance_rank : Nat
  title : String
  channel : String
  video_published_at : String
  detail : Option VideoDetail
deriving DecidableEq, Repr

/-- `search_videos`: on an `HttpError` return `[]`; otherwise rank the
items 1-based in response order and merge in the detail mapping. -/
def search_videos (searchErr : Bool) (items : List SearchItem)
    (details : String → Option VideoDetail) : List Video :=
  if searchErr then []
  else items.enum.map (fun p =>
    { video_id := p.2.videoId, relevance_rank := p.1 + 1,
      title := p.2.title, channel := p.2.channelTitle,
      video_published_at := p.2.publishedAt,
      detail := details p.2.videoId })

/-! ## Orchestration and export (`scrape_comments`) -/

/-- One CSV row: a comment decorated with its video's denormalized
fields, in the export column order. -/
structure Row where
  video_id : String
  comment_id : String
  parent_id : Option String
  is_reply : Bool
  relevance_rank : Nat
  video_title : String
  video_channel : String
  video_published_at : String
  video_view_count : Nat
  video_like_count : Nat
  video_comment_count : Nat
  video_duration : Nat
  video_description : String
  author : String
  comment_text : String
  comment_like_count : Nat
  comment_published_at : String
deriving DecidableEq, Repr

/-- The decoration step of `scrape_comments`: absent enrichment detail
falls back to `video.get(key, 0)` / `video.get(key, "")` defaults. -/
def decorate (v : Video) (c : Comment) : Row :=
  { video_id := c.video_id, comment_id := c.comment_id,
    parent_id := c.parent_id, is_reply := c.is_reply,
    relevance_rank := v.relevance_rank,
    video_title := v.title, video_channel := v.channel,
    video_published_at := v.video_published_at,
    video_view_count := (v.detail.map VideoDetail.view_count).getD 0,
    video_like_count := (v.detail.map VideoDetail.like_count).getD 0,
    video_comment_count := (v.detail.map VideoDetail.comment_count).getD 0,
    video_duration := (v.detail.map VideoDetail.duration).getD 0,
    video_description := (v.detail.map VideoDetail.description).getD "",
    author := c.author, comment_text := c.comment_text,
    comment_like_count := c.comment_like_count,
    comment_published_at := c.comment_published_at }

/-- The rows one video contributes to the run: its retrieved comments,
each decorated with the video's metadata. -/
def videoRows (csrc : String → VideoCommentSource) (v : Video) : List Row :=
  ((get_video_comments (csrc v.video_id) v.video_id).1).map (decorate v)

/-- The run-wide accumulator `all_comments` after the per-video loop. -/
def allRows (csrc : String → VideoCommentSource) (videos : List Video) :
    List Row :=
  videos.foldl (fun acc v => acc ++ videoRows csrc v) []

/-- Outcome of a run: early exit with "No videos found.", early exit with
"No comments collected." (no file written), or an export file with the
given rows. -/
inductive ScrapeResult where
  | noVideos : ScrapeResult
  | noComments : ScrapeResult
  | exported : List Row → ScrapeResult
deriving DecidableEq, Repr

/-- `scrape_comments`: discovery, per-video retrieval and decoration,
then export — the CSV is written only when `all_comments` is non-empty. -/
def scrape_comments (searchErr : Bool) (items : List SearchItem)
    (details : String → Option VideoDetail)
    (csrc : String → VideoCommentSource) : ScrapeResult :=
  let videos := search_videos searchErr items details
  if videos.isEmpty then .noVideos
  else
    let rows := allRows csrc videos
    if rows.isEmpty then .noComments else .exported rows

/-! ## Concrete scenarios from the specification's testable properties -/

/-- A reply snippet with a given id, for the synthetic scenarios. -/
def mkReply (i : String) : ReplySnippet :=
  { id := i, author := "u-" ++ i, text := "body-" ++ i, likeCount := 0,
    publishedAt := "2025-01-01T00:00:00Z" }

/-- The synthetic thread of the completeness property: 5 total replies,
3 of them inline. -/
def itemC3 : ThreadItem :=
  { id := "p", topAuthor := "top", topText := "parent body", topLikeCount := 2,
    topPublishedAt := "2025-01-01T00:00:00Z",
    replies := some [mkReply "r1", mkReply "r2", mkReply "r3"],
    totalReplyCount := 5 }

/-- The remote data of the completeness scenario: the reply-listing
endpoint returns the same 3 inline replies plus 2 more for parent `p`. -/
def srcC3 : VideoCommentSource :=
  { threadPages := [[itemC3]], threadErr := false,
    replyFetch := fun p =>
      if p = "p" then
        { pages := [[mkReply "r1", mkReply "r2", mkReply "r3",
                     mkReply "r4", mkReply "r5"]], err := false }
      else { pages := [], err := false } }

/-- Top-level comment A of the ordering scenario: one inline reply, two
replies in total, so a supplemental fetch is needed. -/
def itemA : ThreadItem :=
  { id := "A", topAuthor := "aa", topText := "A body", topLikeCount := 0,
    topPublishedAt := "2025-01-02T00:00:00Z",
    replies := some [mkReply "rA1"], totalReplyCount := 2 }

/-- Top-level comment B of the ordering scenario: its single reply is
inline, so no supplemental fetch happens. -/
def itemB : ThreadItem :=
  { id := "B", topAuthor := "bb", topText := "B body", topLikeCount := 0,
    topPublishedAt := "2025-01-03T00:00:00Z",
    replies := some [mkReply "rB1"], totalReplyCount := 1 }

/-- The remote data of the ordering scenario. -/
def srcC6 : VideoCommentSource :=
  { threadPages := [[itemA, itemB]], threadErr := false,
    replyFetch := fun p =>
      if p = "A" then { pages := [[mkReply "rA1", mkReply "rA2"]], err := false }
      else { pages := [], err := false } }

/-- A replyless thread item, collected before the error below hits. -/
def itemC2 : ThreadItem :=
  { id := "t1", topAuthor := "aa", topText := "hello", topLikeCount := 0,
    topPublishedAt := "2025-01-01T00:00:00Z",
    replies := none, totalReplyCount := 0 }

/-- A thread source that collects one comment from its first page and
then hits an `HttpError` fetching the next page. -/
def srcC2 : VideoCommentSource :=
  { threadPages := [[itemC2]],
    threadErr := true,
    replyFetch := fun _ => { pages := [], err := false } }

/-! ## Predicates, id bookkeeping and fixtures used by the theorems -/

/-- A non-empty string of digit characters: what a `(\d+)` group
captures. -/
def goodDigits (ds : List Char) : Prop :=
  ds ≠ [] ∧ ∀ c ∈ ds, c.isDigit = true

/-- One optional rendered component of a duration token: absent, or a
digit group followed by its unit letter. -/
def compToken : Option (List Char) → Char → List Char
  | none, _ => []
  | some ds, u => ds ++ [u]

/-- A duration token `PT[nH][nM][nS]` with each component optional. -/
def mkToken (oh om os : Option (List Char)) : List Char :=
  'P' :: 'T' :: (compToken oh 'H' ++ (compToken om 'M' ++ compToken os 'S'))

/-- The numeric value of an optional component (0 when absent). -/
def compVal : Option (List Char) → Nat
  | none => 0
  | some ds => digitsToNat ds

/-- Well-formedness of an optional component: when present, a non-empty
digit group. -/
def goodComp : Option (List Char) → Prop
  | none => True
  | some ds => goodDigits ds

/-- All thread items of a source, in the order the paging loop visits
them. -/
def threadItems (src : VideoCommentSource) : List ThreadItem :=
  src.threadPages.flatten

/-- The ids of a thread item's inline replies. -/
def inlineIds (it : ThreadItem) : List String :=
  (it.replies.getD []).map ReplySnippet.id

/-- The ids a thread item contributes through the thread-listing
response: its own id and its inline replies' ids. -/
def itemIds (it : ThreadItem) : List String := it.id :: inlineIds it

/-- All ids the thread-listing sub-protocol presents for a source. -/
def primaryIds (src : VideoCommentSource) : List String :=
  (threadItems src).flatMap itemIds

/-- The ids the reply-listing endpoint presents for one thread item's
parent id. -/
def supIdsOf (rf : String → ReplyFetch) (it : ThreadItem) : List String :=
  ((rf it.id).pages.flatten).map ReplySnippet.id

/-- The comment ids of a collected list, in order. -/
def csIds (cs : List Comment) : List String := cs.map Comment.comment_id

/-- Every id either sub-protocol can present for a source: the universe
the retriever's output ids are drawn from. -/
def videoIdUniverse (src : VideoCommentSource) : List String :=
  primaryIds src ++ (threadItems src).flatMap (supIdsOf src.replyFetch)

/-- Every collected comment belongs to the processed video, its
`is_reply` flag agrees with the nullability of `parent_id`, and a
non-null `parent_id` points at a collected top-level comment. -/
def wellLinked (vid : String) (cs : List Comment) : Prop :=
  ∀ c ∈ cs, c.video_id = vid ∧ (c.is_reply = true ↔ c.parent_id ≠ none) ∧
    ∀ p, c.parent_id = some p →
      ∃ t ∈ cs, t.is_reply = false ∧ t.comment_id = p ∧ t.video_id = vid

/-- The invariant carried while walking one thread's reply-listing
pages: links are consistent and the parent's top-level comment has
already been collected. -/
def linkState (vid parent : String) (cs : List Comment) : Prop :=
  wellLinked vid cs ∧
    ∃ t ∈ cs, t.is_reply = false ∧ t.comment_id = parent ∧ t.video_id = vid

/-- The invariant carried through one thread's supplemental-reply walk:
collected ids stay duplicate-free, stay clear of a forbidden set `F`
(the ids later thread items will emit), and keep covering a set `S`
(the thread's inline reply ids, already emitted). -/
def supState (F S : List String) (cs : List Comment) : Prop :=
  (csIds cs).Nodup ∧ (∀ x ∈ F, x ∉ csIds cs) ∧ (∀ x ∈ S, x ∈ csIds cs)

/-- The denormalized video columns of a row, in schema order. -/
def rowVideoFields (r : Row) :
    Nat × String × String × String × Nat × Nat × Nat × Nat × String :=
  (r.relevance_rank, r.video_title, r.video_channel, r.video_published_at,
   r.video_view_count, r.video_like_count, r.video_comment_count,
   r.video_duration, r.video_description)

/-- The video fields a Video record denormalizes onto its rows, with
the zero/empty defaults applied for absent enrichment detail. -/
def videoFields (v : Video) :
    Nat × String × String × String × Nat × Nat × Nat × Nat × String :=
  (v.relevance_rank, v.title, v.channel, v.video_published_at,
   (v.detail.map VideoDetail.view_count).getD 0,
   (v.detail.map VideoDetail.like_count).getD 0,
   (v.detail.map VideoDetail.comment_count).getD 0,
   (v.detail.map VideoDetail.duration).getD 0,
   (v.detail.map VideoDetail.description).getD "")

/-- A one-video search response. -/
def items1 : List SearchItem :=
  [{ videoId := "v1", title := "T1", channelTitle := "Ch1", publishedAt := "p1" }]

/-- A comment source serving every video the two-source thread of the
completeness scenario. -/
def csrc1 : String → VideoCommentSource := fun _ => srcC3

/-- A two-video search response. -/
def itemsW : List SearchItem :=
  [{ videoId := "v1", title := "T1", channelTitle := "Ch1", publishedAt := "p1" },
   { videoId := "v2", title := "T2", channelTitle := "Ch2", publishedAt := "p2" }]

/-- Enrichment detail for the first video. -/
def vdW : VideoDetail :=
  { view_count := 10, like_count := 2, comment_count := 3, duration := 138,
    description := "d1" }

/-- A detail mapping that knows only the first video. -/
def detailsW : String → Option VideoDetail :=
  fun i => if i = "v1" then some vdW else none

/-- An error-free single-thread comment source. -/
def srcW : VideoCommentSource := { srcC2 with threadErr := false }

/-- A comment source serving every video one clean thread. -/
def csrcW : String → VideoCommentSource := fun _ => srcW

/-- The Video record discovery builds for the first search item. -/
def vW1 : Video :=
  { video_id := "v1", relevance_rank := 1, title := "T1", channel := "Ch1",
    video_published_at := "p1", detail := some vdW }

/-- The Video record discovery builds for the second search item: no
enrichment detail. -/
def vW2 : Video :=
  { video_id := "v2", relevance_rank := 2, title := "T2", channel := "Ch2",
    video_published_at := "p2", detail := none }

/-- Three videos for the partial-failure run. -/
def vidA : Video :=
  { video_id := "a", relevance_rank := 1, title := "ta", channel := "ca",
    video_published_at := "", detail := none }

def vidB : Video :=
  { video_id := "b", relevance_rank := 2, title := "tb", channel := "cb",
    video_published_at := "", detail := none }

def vidC : Video :=
  { video_id := "c", relevance_rank := 3, title := "tc", channel := "cc",
    video_published_at := "", detail := none }

/-- A comment source where the middle video errors while thread-paging
and the others serve the ordering scenario's threads. -/
def csrcErrB : String → VideoCommentSource :=
  fun i => if i = "b" then srcC2 else srcC6

/-! ## Lemmas about the duration parser -/

theorem takeWhile_append_stop {p : Char → Bool} :
    ∀ (ds : List Char) (c : Char) (r : List Char),
      (∀ x ∈ ds, p x = true) → p c = false →
      (ds ++ c :: r).takeWhile p = ds
  | [], c, r, _, hc => by simp [List.takeWhile_cons, hc]
  | d :: ds, c, r, hds, hc => by
    have hd : p d = true := hds d (by simp)
    simp only [List.cons_append, List.takeWhile_cons, hd]
    simp [takeWhile_append_stop ds c r (fun x hx => hds x (by simp [hx])) hc]

theorem dropWhile_append_stop {p : Char → Bool} :
    ∀ (ds : List Char) (c : Char) (r : List Char),
      (∀ x ∈ ds, p x = true) → p c = false →
      (ds ++ c :: r).dropWhile p = c :: r
  | [], c, r, _, hc => by simp [List.dropWhile_cons, hc]
  | d :: ds, c, r, hds, hc => by
    have hd : p d = true := hds d (by simp)
    simp only [List.cons_append, List.dropWhile_cons, hd]
    simp [dropWhile_append_stop ds c r (fun x hx => hds x (by simp [hx])) hc]

theorem dropWhile_all {p : Char → Bool} :
    ∀ (ds : List Char), (∀ x ∈ ds, p x = true) → ds.dropWhile p = []
  | [], _ => rfl
  | d :: ds, hds => by
    have hd : p d = true := hds d (by simp)
    simp only [List.dropWhile_cons, hd]
    simp [dropWhile_all ds (fun x hx => hds x (by simp [hx]))]

/-- A component group matches: digits followed by the unit letter are
consumed and valued. -/
theorem parseComp_hit (u : Char) (ds rest : List Char)
    (hds : goodDigits ds) (hu : u.isDigit = false) :
    parseComp u (ds ++ u :: rest) = (digitsToNat ds, rest) := by
  unfold parseComp
  rw [dropWhile_append_stop ds u rest hds.2 hu,
    takeWhile_append_stop ds u rest hds.2 hu]
  simp [hds.1]

/-- A component group fails on a wrong unit letter: nothing is consumed
(the regex engine resets the position for the next optional group). -/
theorem parseComp_miss (u c : Char) (ds rest : List Char)
    (hds : ∀ x ∈ ds, x.isDigit = true) (hc : c.isDigit = false)
    (hcu : c ≠ u) :
    parseComp u (ds ++ c :: rest) = (0, ds ++ c :: rest) := by
  unfold parseComp
  rw [dropWhile_append_stop ds c rest hds hc]
  simp [hcu]

/-- A component group fails when no unit letter follows at all. -/
theorem parseComp_end (u : Char) (ds : List Char)
    (hds : ∀ x ∈ ds, x.isDigit = true) :
    parseComp u ds = (0, ds) := by
  unfold parseComp
  rw [dropWhile_all ds hds]

/-- Unfolding the `PT`-prefixed branch of the duration parser. -/
theorem parseDurationChars_PT (rest : List Char) :
    parseDurationChars ('P' :: 'T' :: rest)
      = (parseComp 'H' rest).1 * 3600
        + (parseComp 'M' (parseComp 'H' rest).2).1 * 60
        + (parseComp 'S' (parseComp 'M' (parseComp 'H' rest).2).2).1 := rfl

/-- The duration parser sums `hours * 3600 + minutes * 60 + seconds`
over the optional components of a `PT`-prefixed token. -/
theorem parseDurationChars_mkToken (oh om os : Option (List Char))
    (h1 : goodComp oh) (h2 : goodComp om) (h3 : goodComp os) :
    parseDurationChars (mkToken oh om os)
      = compVal oh * 3600 + compVal om * 60 + compVal os := by
  have hH : ('H' : Char).isDigit = false := by decide
  have hM : ('M' : Char).isDigit = false := by decide
  have hS : ('S' : Char).isDigit = false := by decide
  rcases oh with _ | h <;> rcases om with _ | m <;> rcases os with _ | s <;>
    simp only [mkToken, compToken, compVal, List.nil_append, List.append_nil,
      List.append_assoc, List.singleton_append, List.cons_append] <;>
    rw [parseDurationChars_PT]
  · rw [parseComp_end 'H' [] (by simp)]
    simp [parseComp_end]
  · rw [parseComp_miss 'H' 'S' s [] h3.2 hS (by decide),
      parseComp_miss 'M' 'S' s [] h3.2 hS (by decide),
      parseComp_hit 'S' s [] h3 hS]
  · rw [parseComp_miss 'H' 'M' m [] h2.2 hM (by decide),
      parseComp_hit 'M' m [] h2 hM,
      parseComp_end 'S' [] (by simp)]
  · rw [parseComp_miss 'H' 'M' m _ h2.2 hM (by decide),
      parseComp_hit 'M' m _ h2 hM,
      parseComp_hit 'S' s [] h3 hS]
  · rw [parseComp_hit 'H' h [] h1 hH,
      parseComp_end 'M' [] (by simp),
      parseComp_end 'S' [] (by simp)]
  · rw [parseComp_hit 'H' h _ h1 hH,
      parseComp_miss 'M' 'S' s [] h3.2 hS (by decide),
      parseComp_hit 'S' s [] h3 hS]
  · rw [parseComp_hit 'H' h _ h1 hH,
      parseComp_hit 'M' m [] h2 hM,
      parseComp_end 'S' [] (by simp)]
  · rw [parseComp_hit 'H' h _ h1 hH,
      parseComp_hit 'M' m _ h2 hM,
      parseComp_hit 'S' s [] h3 hS]

/-- A full `PT..H..M..S` token followed by arbitrary trailing characters
parses exactly its leading components; the trailing part is ignored. -/
theorem parseDurationChars_trailing (h m s rest : List Char)
    (h1 : goodDigits h) (h2 : goodDigits m) (h3 : goodDigits s) :
    parseDurationChars
        ('P' :: 'T' :: (h ++ 'H' :: (m ++ 'M' :: (s ++ 'S' :: rest))))
      = digitsToNat h * 3600 + digitsToNat m * 60 + digitsToNat s := by
  rw [parseDurationChars_PT, parseComp_hit 'H' h _ h1 (by decide),
    parseComp_hit 'M' m _ h2 (by decide),
    parseComp_hit 'S' s rest h3 (by decide)]

/-- Inputs that do not begin with the two characters `PT` parse to 0. -/
theorem parseDurationChars_no_PT (l : List Char)
    (hl : ∀ r, l ≠ 'P' :: 'T' :: r) : parseDurationChars l = 0 := by
  rw [parseDurationChars.eq_def]
  split
  · rename_i rest
    exact absurd rfl (hl rest)
  · rfl

/-! ## Fold lemmas and structural equalities -/

/-- A fold preserves an invariant its step preserves. -/
theorem foldl_inv {σ α : Type _} (f : σ → α → σ) (P : σ → Prop)
    (step : ∀ s a, P s → P (f s a)) :
    ∀ (l : List α) (s : σ), P s → P (l.foldl f s)
  | [], _, h => h
  | a :: l, s, h => foldl_inv f P step l (f s a) (step s a h)

/-- A fold preserves an invariant its step preserves on the list's
members. -/
theorem foldl_inv_mem {σ α : Type _} (f : σ → α → σ) (P : σ → Prop) :
    ∀ (l : List α) (s : σ), (∀ a ∈ l, ∀ t, P t → P (f t a)) → P s →
      P (l.foldl f s)
  | [], _, _, h => h
  | a :: l, s, hstep, h =>
    foldl_inv_mem f P l (f s a)
      (fun b hb t ht => hstep b (by simp [hb]) t ht)
      (hstep a (by simp) s h)

/-- The nested page/item fold of `get_video_comments` equals one fold
over the flattened item list. -/
theorem get_video_comments_eq (src : VideoCommentSource) (vid : String) :
    get_video_comments src vid
      = (if src.threadErr
          then ([], (processItems src.replyFetch vid ([], []) (threadItems src)).2)
          else processItems src.replyFetch vid ([], []) (threadItems src)) := by
  unfold get_video_comments processItems threadItems
  rw [List.foldl_flatten]

/-- The run accumulator is the concatenation of the per-video row
lists, in video order. -/
theorem allRows_eq (csrc : String → VideoCommentSource) (videos : List Video) :
    allRows csrc videos = videos.flatMap (videoRows csrc) := by
  suffices h : ∀ (l : List Video) (acc : List Row),
      l.foldl (fun acc v => acc ++ videoRows csrc v) acc
        = acc ++ l.flatMap (videoRows csrc) by
    simpa using h videos []
  intro l
  induction l with
  | nil => simp
  | cons v l ih => intro acc; simp [ih, List.flatMap_cons]

/-- The supplemental-call log built by the item fold: one entry per
processed item whose `totalReplyCount` exceeds its inline reply count. -/
theorem processItems_log (rf : String → ReplyFetch) (vid : String) :
    ∀ (L : List ThreadItem) (st : List Comment × List String),
      (processItems rf vid st L).2
        = st.2 ++ (L.filter needsSupplemental).map ThreadItem.id := by
  intro L
  induction L with
  | nil => intro st; simp [processItems]
  | cons it L ih =>
    intro st
    rw [processItems, List.foldl_cons]
    have hL : (processItems rf vid (processItem rf vid st it) L).2
        = (processItem rf vid st it).2
          ++ (L.filter needsSupplemental).map ThreadItem.id := ih _
    rw [processItems] at hL
    rw [hL]
    by_cases h : needsSupplemental it <;>
      simp [processItem, h, List.filter_cons]

/-! ## Parent consistency (the per-comment link invariant) -/

theorem wellLinked_append (vid : String) (cs ext : List Comment)
    (h : wellLinked vid cs)
    (hext : ∀ c ∈ ext, c.video_id = vid ∧
      (c.is_reply = true ↔ c.parent_id ≠ none) ∧
      ∀ p, c.parent_id = some p →
        ∃ t ∈ cs ++ ext, t.is_reply = false ∧ t.comment_id = p ∧
          t.video_id = vid) :
    wellLinked vid (cs ++ ext) := by
  intro c hc
  rcases List.mem_append.mp hc with h1 | h2
  · obtain ⟨ha, hb, hc'⟩ := h c h1
    refine ⟨ha, hb, fun p hp => ?_⟩
    obtain ⟨t, ht, hprops⟩ := hc' p hp
    exact ⟨t, List.mem_append.mpr (Or.inl ht), hprops⟩
  · exact hext c h2

/-- Emitting a thread item's top-level comment and its inline replies
preserves the link invariant: the replies point at the just-emitted
top-level comment. -/
theorem wellLinked_emit_item (vid : String) (it : ThreadItem)
    (cs : List Comment) (h : wellLinked vid cs) :
    wellLinked vid (cs ++ [topComment vid it]
      ++ (it.replies.getD []).map (replyComment vid it.id)) := by
  rw [List.append_assoc]
  apply wellLinked_append vid cs _ h
  intro c hc
  have htop : topComment vid it ∈
      cs ++ ([topComment vid it]
        ++ (it.replies.getD []).map (replyComment vid it.id)) := by
    simp
  rcases List.mem_append.mp hc with h1 | h2
  · have hctop : c = topComment vid it := by simpa using h1
    subst hctop
    refine ⟨rfl, by simp [topComment], fun p hp => ?_⟩
    simp [topComment] at hp
  · obtain ⟨r, _, hr⟩ := List.mem_map.mp h2
    subst hr
    refine ⟨rfl, by simp [replyComment], fun p hp => ?_⟩
    have hpit : p = it.id := by
      simpa [replyComment] using hp.symm
    subst hpit
    exact ⟨topComment vid it, htop, rfl, rfl, rfl⟩

theorem addSupplementalReply_linkState (vid parent : String)
    (cs : List Comment) (r : ReplySnippet)
    (h : linkState vid parent cs) :
    linkState vid parent (addSupplementalReply vid parent cs r) := by
  unfold addSupplementalReply
  by_cases hseen : hasId cs r.id
  · simpa [hseen] using h
  · simp only [hseen, if_false, Bool.false_eq_true]
    obtain ⟨hw, t, ht, hprops⟩ := h
    refine ⟨?_, t, List.mem_append.mpr (Or.inl ht), hprops⟩
    apply wellLinked_append vid cs _ hw
    intro c hc
    have hcr : c = replyComment vid parent r := by simpa using hc
    subst hcr
    refine ⟨rfl, by simp [replyComment], fun p hp => ?_⟩
    have hpp : p = parent := by simpa [replyComment] using hp.symm
    subst hpp
    exact ⟨t, List.mem_append.mpr (Or.inl ht), hprops⟩

theorem processReplyPages_linkState (vid parent : String)
    (pages : List (List ReplySnippet)) (cs : List Comment)
    (h : linkState vid parent cs) :
    linkState vid parent (processReplyPages vid parent pages cs) := by
  unfold processReplyPages
  refine foldl_inv _ (linkState vid parent) ?_ pages cs h
  intro acc page hacc
  exact foldl_inv _ (linkState vid parent)
    (fun s r hs => addSupplementalReply_linkState vid parent s r hs)
    page acc hacc

theorem processItem_wellLinked (rf : String → ReplyFetch) (vid : String)
    (st : List Comment × List String) (it : ThreadItem)
    (h : wellLinked vid st.1) :
    wellLinked vid (processItem rf vid st it).1 := by
  have h1 := wellLinked_emit_item vid it st.1 h
  have htop : topComment vid it ∈ st.1 ++ [topComment vid it]
      ++ (it.replies.getD []).map (replyComment vid it.id) := by
    simp
  have hstate : linkState vid it.id
      (st.1 ++ [topComment vid it]
        ++ (it.replies.getD []).map (replyComment vid it.id)) :=
    ⟨h1, topComment vid it, htop, rfl, rfl, rfl⟩
  unfold processItem
  by_cases hn : needsSupplemental it
  · simpa [hn] using
      (processReplyPages_linkState vid it.id (rf it.id).pages _ hstate).1
  · simpa [hn] using h1

/-- The full output of the retriever satisfies the link invariant. -/
theorem retriever_wellLinked (src : VideoCommentSource) (vid : String) :
    wellLinked vid (get_video_comments src vid).1 := by
  rw [get_video_comments_eq]
  have hnil : wellLinked vid [] := by intro c hc; simp at hc
  by_cases h : src.threadErr
  · simpa [h] using hnil
  · simp only [h, if_false, Bool.false_eq_true]
    exact foldl_inv _ (fun st => wellLinked vid st.1)
      (fun s a hs => processItem_wellLinked src.replyFetch vid s a hs)
      (threadItems src) ([], []) hnil

/-! ## Identifier uniqueness machinery -/

theorem hasId_iff (cs : List Comment) (i : String) :
    hasId cs i = true ↔ i ∈ csIds cs := by
  unfold hasId csIds
  rw [List.any_eq_true]
  simp [List.mem_map]

theorem csIds_addSupplementalReply (vid parent : String)
    (cs : List Comment) (r : ReplySnippet) :
    csIds (addSupplementalReply vid parent cs r)
      = if r.id ∈ csIds cs then csIds cs else csIds cs ++ [r.id] := by
  unfold addSupplementalReply
  by_cases h : r.id ∈ csIds cs
  · simp [h, (hasId_iff cs r.id).mpr h]
  · have hfalse : hasId cs r.id = false := by
      cases he : hasId cs r.id
      · rfl
      · exact absurd ((hasId_iff cs r.id).mp he) h
    rw [if_neg h]
    simp [hfalse, csIds, replyComment]

theorem csIds_emit_item (vid : String) (it : ThreadItem) (cs : List Comment) :
    csIds (cs ++ [topComment vid it]
      ++ (it.replies.getD []).map (replyComment vid it.id))
      = csIds cs ++ itemIds it := by
  simp only [csIds, itemIds, inlineIds, List.map_append, List.map_map,
    List.append_assoc]
  rfl

theorem addSupplementalReply_supState (vid parent : String)
    (F S : List String) (cs : List Comment) (r : ReplySnippet)
    (hr : r.id ∈ S ∨ r.id ∉ F) (h : supState F S cs) :
    supState F S (addSupplementalReply vid parent cs r) := by
  obtain ⟨h1, h2, h3⟩ := h
  by_cases hm : r.id ∈ csIds cs
  · rw [supState, csIds_addSupplementalReply, if_pos hm]
    exact ⟨h1, h2, h3⟩
  · rw [supState, csIds_addSupplementalReply, if_neg hm]
    have hrF : r.id ∉ F := by
      rcases hr with hS | hF
      · exact absurd (h3 _ hS) hm
      · exact hF
    refine ⟨?_, ?_, ?_⟩
    · rw [List.nodup_append]
      exact ⟨h1, List.nodup_singleton _, fun a ha hb => by
        rw [List.mem_singleton] at hb; exact hm (hb ▸ ha)⟩
    · intro x hx
      rw [List.mem_append, List.mem_singleton]
      rintro (hc | hc)
      · exact h2 x hx hc
      · exact hrF (hc ▸ hx)
    · intro x hx
      exact List.mem_append.mpr (Or.inl (h3 x hx))

theorem processReplyPages_supState (vid parent : String)
    (pages : List (List ReplySnippet)) (F S : List String)
    (cs : List Comment)
    (hall : ∀ r ∈ pages.flatten, r.id ∈ S ∨ r.id ∉ F)
    (h : supState F S cs) :
    supState F S (processReplyPages vid parent pages cs) := by
  unfold processReplyPages
  refine foldl_inv_mem _ (supState F S) pages cs ?_ h
  intro page hpage t ht
  refine foldl_inv_mem _ (supState F S) page t ?_ ht
  intro r hr t' ht'
  exact addSupplementalReply_supState vid parent F S t' r
    (hall r (List.mem_flatten.mpr ⟨page, hpage, hr⟩)) ht'

theorem csIds_processReplyPages_subset (vid parent : String)
    (pages : List (List ReplySnippet)) (cs : List Comment) :
    ∀ x ∈ csIds (processReplyPages vid parent pages cs),
      x ∈ csIds cs ∨ x ∈ (pages.flatten).map ReplySnippet.id := by
  unfold processReplyPages
  refine foldl_inv_mem _
    (fun acc => ∀ x ∈ csIds acc,
      x ∈ csIds cs ∨ x ∈ (pages.flatten).map ReplySnippet.id)
    pages cs ?_ (fun x hx => Or.inl hx)
  intro page hpage t ht
  refine foldl_inv_mem _
    (fun acc => ∀ x ∈ csIds acc,
      x ∈ csIds cs ∨ x ∈ (pages.flatten).map ReplySnippet.id)
    page t ?_ ht
  intro r hr t' ht' x hx
  rw [csIds_addSupplementalReply] at hx
  by_cases hm : r.id ∈ csIds t'
  · rw [if_pos hm] at hx
    exact ht' x hx
  · rw [if_neg hm, List.mem_append, List.mem_singleton] at hx
    rcases hx with hx | hx
    · exact ht' x hx
    · exact Or.inr (hx ▸ List.mem_map.mpr
        ⟨r, List.mem_flatten.mpr ⟨page, hpage, hr⟩, rfl⟩)

/-- The comment-list component of one item step, with the branch made
explicit. -/
theorem processItem_fst (rf : String → ReplyFetch) (vid : String)
    (st : List Comment × List String) (it : ThreadItem) :
    (processItem rf vid st it).1
      = if needsSupplemental it
        then processReplyPages vid it.id (rf it.id).pages
          (st.1 ++ [topComment vid it]
            ++ (it.replies.getD []).map (replyComment vid it.id))
        else st.1 ++ [topComment vid it]
          ++ (it.replies.getD []).map (replyComment vid it.id) := by
  unfold processItem
  by_cases hn : needsSupplemental it <;> simp [hn]

/-- The heart of the uniqueness argument: processing a list of thread
items keeps the collected ids duplicate-free, provided the thread
listing itself presents no duplicate id and every supplementally
listed reply id is either an inline id of its own thread (the overlap
the seen-check handles) or a fresh id. -/
theorem processItems_ids_nodup (rf : String → ReplyFetch) (vid : String) :
    ∀ (L : List ThreadItem) (st : List Comment × List String),
      (csIds st.1).Nodup →
      (L.flatMap itemIds).Nodup →
      (∀ x ∈ L.flatMap itemIds, x ∉ csIds st.1) →
      (∀ it ∈ L, ∀ i ∈ supIdsOf rf it,
        i ∈ inlineIds it ∨ i ∉ L.flatMap itemIds) →
      (csIds (processItems rf vid st L).1).Nodup := by
  intro L
  induction L with
  | nil => intro st h1 _ _ _; simpa [processItems] using h1
  | cons it L ih =>
    intro st h1 h2 h3 h4
    simp only [List.flatMap_cons] at h2 h3 h4
    obtain ⟨hitem, hrest, hdisj⟩ := List.nodup_append.mp h2
    have hids1 : csIds (st.1 ++ [topComment vid it]
        ++ (it.replies.getD []).map (replyComment vid it.id))
        = csIds st.1 ++ itemIds it := csIds_emit_item vid it st.1
    have hnodup1 : (csIds (st.1 ++ [topComment vid it]
        ++ (it.replies.getD []).map (replyComment vid it.id))).Nodup := by
      rw [hids1, List.nodup_append]
      exact ⟨h1, hitem, fun a ha hb =>
        h3 a (List.mem_append.mpr (Or.inl hb)) ha⟩
    have hsup : supState (L.flatMap itemIds) (inlineIds it)
        (st.1 ++ [topComment vid it]
          ++ (it.replies.getD []).map (replyComment vid it.id)) := by
      refine ⟨hnodup1, ?_, ?_⟩
      · intro x hx
        rw [hids1, List.mem_append]
        rintro (hc | hc)
        · exact h3 x (List.mem_append.mpr (Or.inr hx)) hc
        · exact hdisj hc hx
      · intro x hx
        rw [hids1]
        exact List.mem_append.mpr (Or.inr (List.mem_cons.mpr (Or.inr hx)))
    have hstep : supState (L.flatMap itemIds) (inlineIds it)
        (processItem rf vid st it).1 := by
      rw [processItem_fst]
      by_cases hn : needsSupplemental it
      · rw [if_pos hn]
        refine processReplyPages_supState vid it.id (rf it.id).pages _ _ _ ?_ hsup
        intro r hr
        have hrs : r.id ∈ supIdsOf rf it := List.mem_map.mpr ⟨r, hr, rfl⟩
        rcases h4 it (List.mem_cons_self it L) r.id hrs with hc | hc
        · exact Or.inl hc
        · exact Or.inr fun hm => hc (List.mem_append.mpr (Or.inr hm))
      · rw [if_neg hn]
        exact hsup
    have h4' : ∀ it' ∈ L, ∀ i ∈ supIdsOf rf it',
        i ∈ inlineIds it' ∨ i ∉ L.flatMap itemIds := by
      intro it' hit' i hi
      rcases h4 it' (List.mem_cons_of_mem it hit') i hi with hc | hc
      · exact Or.inl hc
      · exact Or.inr fun hm => hc (List.mem_append.mpr (Or.inr hm))
    exact ih (processItem rf vid st it) hstep.1 hrest hstep.2.1 h4'

/-- Per-video uniqueness: under a duplicate-free thread listing whose
reply-listing overlap is confined to each thread's own inline replies,
the retriever's output contains no repeated comment id. -/
theorem retriever_ids_nodup (src : VideoCommentSource) (vid : String)
    (hp : (primaryIds src).Nodup)
    (hs : ∀ it ∈ threadItems src, ∀ i ∈ supIdsOf src.replyFetch it,
      i ∈ inlineIds it ∨ i ∉ primaryIds src) :
    (csIds (get_video_comments src vid).1).Nodup := by
  rw [get_video_comments_eq]
  by_cases h : src.threadErr
  · simp [h, csIds]
  · simp only [h, if_false, Bool.false_eq_true]
    exact processItems_ids_nodup src.replyFetch vid (threadItems src) ([], [])
      (by simp [csIds]) hp (by simp [csIds]) hs

theorem csIds_processItem_subset (rf : String → ReplyFetch) (vid : String)
    (st : List Comment × List String) (it : ThreadItem) :
    ∀ x ∈ csIds (processItem rf vid st it).1,
      x ∈ csIds st.1 ∨ x ∈ itemIds it ∨ x ∈ supIdsOf rf it := by
  intro x hx
  rw [processItem_fst] at hx
  by_cases hn : needsSupplemental it
  · rw [if_pos hn] at hx
    rcases csIds_processReplyPages_subset _ _ _ _ x hx with hx | hx
    · rw [csIds_emit_item, List.mem_append] at hx
      rcases hx with hx | hx
      · exact Or.inl hx
      · exact Or.inr (Or.inl hx)
    · exact Or.inr (Or.inr hx)
  · rw [if_neg hn, csIds_emit_item, List.mem_append] at hx
    rcases hx with hx | hx
    · exact Or.inl hx
    · exact Or.inr (Or.inl hx)

theorem csIds_processItems_subset (rf : String → ReplyFetch) (vid : String) :
    ∀ (L : List ThreadItem) (st : List Comment × List String),
      ∀ x ∈ csIds (processItems rf vid st L).1,
        x ∈ csIds st.1 ∨ x ∈ L.flatMap itemIds
          ∨ x ∈ L.flatMap (supIdsOf rf) := by
  intro L
  induction L with
  | nil =>
    intro st x hx
    exact Or.inl (by simpa [processItems] using hx)
  | cons it L ih =>
    intro st x hx
    have hx' := ih (processItem rf vid st it) x hx
    rcases hx' with hx' | hx' | hx'
    · rcases csIds_processItem_subset rf vid st it x hx' with h | h | h
      · exact Or.inl h
      · exact Or.inr (Or.inl (by
          rw [List.flatMap_cons]; exact List.mem_append.mpr (Or.inl h)))
      · exact Or.inr (Or.inr (by
          rw [List.flatMap_cons]; exact List.mem_append.mpr (Or.inl h)))
    · exact Or.inr (Or.inl (by
        rw [List.flatMap_cons]; exact List.mem_append.mpr (Or.inr hx')))
    · exact Or.inr (Or.inr (by
        rw [List.flatMap_cons]; exact List.mem_append.mpr (Or.inr hx')))

/-- Every id the retriever emits is drawn from the source's id
universe. -/
theorem retriever_ids_subset (src : VideoCommentSource) (vid : String) :
    ∀ x ∈ csIds (get_video_comments src vid).1, x ∈ videoIdUniverse src := by
  rw [get_video_comments_eq]
  by_cases h : src.threadErr
  · simp [h, csIds]
  · simp only [h, if_false, Bool.false_eq_true]
    intro x hx
    rcases csIds_processItems_subset src.replyFetch vid (threadItems src)
        ([], []) x hx with h' | h' | h'
    · simp [csIds] at h'
    · exact List.mem_append.mpr (Or.inl h')
    · exact List.mem_append.mpr (Or.inr h')

/-- Row decoration preserves comment ids. -/
theorem videoRows_ids (csrc : String → VideoCommentSource) (v : Video) :
    (videoRows csrc v).map Row.comment_id
      = csIds (get_video_comments (csrc v.video_id) v.video_id).1 := by
  simp only [videoRows, csIds, List.map_map]
  rfl

/-- Run-wide uniqueness over any processed video list: per-video
well-formedness plus pairwise-disjoint id universes give a
duplicate-free run accumulator. -/
theorem allRows_ids_nodup (csrc : String → VideoCommentSource) :
    ∀ (videos : List Video),
      (∀ v ∈ videos, (primaryIds (csrc v.video_id)).Nodup ∧
        ∀ it ∈ threadItems (csrc v.video_id),
          ∀ i ∈ supIdsOf (csrc v.video_id).replyFetch it,
            i ∈ inlineIds it ∨ i ∉ primaryIds (csrc v.video_id)) →
      List.Pairwise (fun u w => ∀ x ∈ videoIdUniverse (csrc u.video_id),
        x ∉ videoIdUniverse (csrc w.video_id)) videos →
      ((allRows csrc videos).map Row.comment_id).Nodup := by
  intro videos
  induction videos with
  | nil => intro _ _; simp [allRows]
  | cons v vs ih =>
    intro hv hp
    rw [allRows_eq, List.flatMap_cons, List.map_append]
    rw [List.pairwise_cons] at hp
    obtain ⟨hhead, htail⟩ := hp
    have hvgood := hv v (List.mem_cons_self v vs)
    rw [List.nodup_append]
    refine ⟨?_, ?_, ?_⟩
    · rw [videoRows_ids]
      exact retriever_ids_nodup _ _ hvgood.1 hvgood.2
    · have := ih (fun w hw => hv w (List.mem_cons_of_mem v hw)) htail
      rwa [allRows_eq] at this
    · intro a ha hb
      rw [videoRows_ids] at ha
      have haU : a ∈ videoIdUniverse (csrc v.video_id) :=
        retriever_ids_subset _ _ a ha
      obtain ⟨r, hr, hra⟩ := List.mem_map.mp hb
      obtain ⟨w, hw, hrw⟩ := List.mem_flatMap.mp hr
      have hwid : a ∈ csIds (get_video_comments (csrc w.video_id) w.video_id).1 := by
        rw [← videoRows_ids]
        exact List.mem_map.mpr ⟨r, hrw, hra⟩
      exact hhead w hw a haU (retriever_ids_subset _ _ a hwid)

/-! ## Orchestrator lemmas -/

/-- An export is exactly the run accumulator over the discovered
videos. -/
theorem scrape_exported_eq (searchErr : Bool) (items : List SearchItem)
    (details : String → Option VideoDetail)
    (csrc : String → VideoCommentSource) :
    ∀ rows, scrape_comments searchErr items details csrc = .exported rows →
      rows = allRows csrc (search_videos searchErr items details) := by
  intro rows h
  unfold scrape_comments at h
  by_cases h1 : (search_videos searchErr items details).isEmpty
  · simp [h1] at h
  · by_cases h2 : (allRows csrc (search_videos searchErr items details)).isEmpty
    · simp [h1, h2] at h
    · simp [h1, h2] at h
      exact h.symm

/-- Each row a video contributes carries that video's id and exactly
its denormalized fields. -/
theorem videoRows_fields (csrc : String → VideoCommentSource) (v : Video) :
    ∀ r ∈ videoRows csrc v,
      r.video_id = v.video_id ∧ rowVideoFields r = videoFields v := by
  intro r hr
  obtain ⟨c, hc, hrc⟩ := List.mem_map.mp hr
  subst hrc
  exact ⟨(retriever_wellLinked (csrc v.video_id) v.video_id c hc).1, rfl⟩

/-- Discovery merges exactly the detail the enrichment mapping holds
for each video id. -/
theorem search_videos_detail (searchErr : Bool) (items : List SearchItem)
    (details : String → Option VideoDetail) :
    ∀ v ∈ search_videos searchErr items details,
      v.detail = details v.video_id := by
  intro v hv
  rw [search_videos] at hv
  by_cases h : searchErr
  · rw [if_pos h] at hv
    simp at hv
  · rw [if_neg h] at hv
    obtain ⟨p, _, hv⟩ := List.mem_map.mp hv
    subst hv
    rfl

/-! ## The claims -/

/-- C1: for any completed run, no `comment_id` appears twice in the
exported row list — identifier uniqueness across the whole collection
run, given a duplicate-free thread listing per video whose
reply-listing overlap is limited to each thread's own inline replies,
and per-video id universes that do not collide across videos. -/
theorem export_comment_ids_unique (searchErr : Bool) (items : List SearchItem)
    (details : String → Option VideoDetail)
    (csrc : String → VideoCommentSource)
    (hv : ∀ v ∈ search_videos searchErr items details,
      (primaryIds (csrc v.video_id)).Nodup ∧
      ∀ it ∈ threadItems (csrc v.video_id),
        ∀ i ∈ supIdsOf (csrc v.video_id).replyFetch it,
          i ∈ inlineIds it ∨ i ∉ primaryIds (csrc v.video_id))
    (hd : List.Pairwise (fun u w => ∀ x ∈ videoIdUniverse (csrc u.video_id),
      x ∉ videoIdUniverse (csrc w.video_id))
      (search_videos searchErr items details)) :
    ∀ rows, scrape_comments searchErr items details csrc = .exported rows →
      (rows.map Row.comment_id).Nodup := by
  intro rows h
  rw [scrape_exported_eq searchErr items details csrc rows h]
  exact allRows_ids_nodup csrc _ hv hd

theorem export_comment_ids_unique_witness :
    ((allRows csrc1 (search_videos false items1 (fun _ => none))).map
      Row.comment_id).Nodup :=
  export_comment_ids_unique false items1 (fun _ => none) csrc1
    (by decide)
    (by
      have hone : search_videos false items1 (fun _ => none)
          = [{ video_id := "v1", relevance_rank := 1, title := "T1",
               channel := "Ch1", video_published_at := "p1",
               detail := none }] := by decide
      rw [hone]
      simp)
    (allRows csrc1 (search_videos false items1 (fun _ => none))) (by decide)

/-- C2 counterexample: with one comment collected from the first thread
page and an HTTP error on the next page, the retriever returns the
empty list, not the comments collected so far. -/
theorem thread_error_counterexample :
    (get_video_comments srcC2 "v").1 = [] ∧
    (get_video_comments { srcC2 with threadErr := false } "v").1
      = [topComment "v" itemC2] ∧
    (get_video_comments srcC2 "v").1 ≠ [topComment "v" itemC2] :=
  ⟨by decide, by decide, by decide⟩

/-- C2 (amended): on a remote error while paging thread-listing
results, retrieval for that video is aborted and the retriever returns
the empty list — comments collected before the error are discarded —
and the orchestrator's run still processes every other video. -/
theorem thread_error_returns_empty_run_continues :
    (∀ (src : VideoCommentSource) (vid : String), src.threadErr = true →
      (get_video_comments src vid).1 = []) ∧
    (∀ (csrc : String → VideoCommentSource) (vs1 vs2 : List Video) (v : Video),
      (csrc v.video_id).threadErr = true →
      allRows csrc (vs1 ++ v :: vs2)
        = allRows csrc vs1 ++ allRows csrc vs2) := by
  have hempty : ∀ (src : VideoCommentSource) (vid : String),
      src.threadErr = true → (get_video_comments src vid).1 = [] := by
    intro src vid h
    rw [get_video_comments_eq, if_pos h]
  refine ⟨hempty, ?_⟩
  intro csrc vs1 vs2 v h
  rw [allRows_eq, allRows_eq, allRows_eq, List.flatMap_append,
    List.flatMap_cons]
  have hnil : videoRows csrc v = [] := by
    unfold videoRows
    rw [hempty _ _ h]
    rfl
  rw [hnil, List.nil_append]

theorem thread_error_returns_empty_run_continues_witness :
    (get_video_comments srcC2 "v").1 = [] ∧
    allRows csrcErrB [vidA, vidB, vidC]
      = allRows csrcErrB [vidA] ++ allRows csrcErrB [vidC] :=
  ⟨thread_error_returns_empty_run_continues.1 srcC2 "v" (by decide),
   thread_error_returns_empty_run_continues.2 csrcErrB [vidA] [vidC] vidB
     (by decide)⟩

/-- C3: for a thread with `total_reply_count = 5`, 3 inline replies,
and a reply-listing endpoint returning those same 3 plus 2 more, the
retriever emits exactly 5 distinct reply rows for that parent. -/
theorem two_source_completeness :
    (((get_video_comments srcC3 "v").1.filter
        (fun c => c.parent_id = some "p")).map (fun c => c.comment_id))
      = ["r1", "r2", "r3", "r4", "r5"] ∧
    (((get_video_comments srcC3 "v").1.filter
        (fun c => c.parent_id = some "p")).map (fun c => c.comment_id)).Nodup ∧
    ((get_video_comments srcC3 "v").1.filter (fun c => c.is_reply)).length
      = 5 :=
  ⟨by decide, by decide, by decide⟩

/-- C4: in every record the retriever emits, `is_reply` holds exactly
when `parent_id` is non-null, and a non-null `parent_id` is the
`comment_id` of some emitted top-level record with the same
`video_id`. -/
theorem parent_consistency (src : VideoCommentSource) (vid : String) :
    ∀ c ∈ (get_video_comments src vid).1,
      (c.is_reply = true ↔ c.parent_id ≠ none) ∧
      ∀ p, c.parent_id = some p →
        ∃ t ∈ (get_video_comments src vid).1,
          t.is_reply = false ∧ t.comment_id = p ∧
          t.video_id = c.video_id := by
  intro c hc
  obtain ⟨hv, hiff, hpar⟩ := retriever_wellLinked src vid c hc
  refine ⟨hiff, fun p hp => ?_⟩
  obtain ⟨t, ht, h1, h2, h3⟩ := hpar p hp
  exact ⟨t, ht, h1, h2, by rw [hv, h3]⟩

theorem parent_consistency_witness :
    ∃ t ∈ (get_video_comments srcC6 "v").1,
      t.is_reply = false ∧ t.comment_id = "A" ∧
      t.video_id = (replyComment "v" "A" (mkReply "rA1")).video_id :=
  (parent_consistency srcC6 "v" (replyComment "v" "A" (mkReply "rA1"))
    (by decide)).2 "A" (by decide)

/-- C5: the duration parser maps `"PT1H2M3S"` to 3723, `"PT5M"` to 300
and the empty token to 0, and in general sums
`hours * 3600 + minutes * 60 + seconds` over the optional H/M/S
components of a `PT`-prefixed token. -/
theorem duration_parsing_spec :
    parse_duration "PT1H2M3S" = 3723 ∧ parse_duration "PT5M" = 300 ∧
    parse_duration "" = 0 ∧
    ∀ oh om os, goodComp oh → goodComp om → goodComp os →
      parse_duration (String.mk (mkToken oh om os))
        = compVal oh * 3600 + compVal om * 60 + compVal os :=
  ⟨by decide, by decide, by decide,
   fun oh om os h1 h2 h3 => parseDurationChars_mkToken oh om os h1 h2 h3⟩

theorem duration_parsing_spec_witness :
    parse_duration (String.mk (mkToken (some ['1']) (some ['2']) (some ['3'])))
      = compVal (some ['1']) * 3600 + compVal (some ['2']) * 60
        + compVal (some ['3']) :=
  duration_parsing_spec.2.2.2 (some ['1']) (some ['2']) (some ['3'])
    ⟨by decide, by decide⟩ ⟨by decide, by decide⟩ ⟨by decide, by decide⟩

/-- C6: with top-level comments A (one inline reply rA1, one
supplemental reply rA2) and B (inline reply rB1), the output order is
A, rA1, rA2, B, rB1 — each top-level comment immediately followed by
its replies, inline before supplemental. -/
theorem ordering_within_video :
    ((get_video_comments srcC6 "v").1.map (fun c => c.comment_id))
      = ["A", "rA1", "rA2", "B", "rB1"] := by decide

/-- C7: a reply-listing request is issued for exactly those threads
whose `totalReplyCount` strictly exceeds the number of inline replies;
for all other threads no reply-listing call is made. -/
theorem supplemental_fetch_policy (src : VideoCommentSource) (vid : String) :
    (get_video_comments src vid).2
      = ((threadItems src).filter needsSupplemental).map ThreadItem.id := by
  rw [get_video_comments_eq]
  have hlog := processItems_log src.replyFetch vid (threadItems src) ([], [])
  by_cases h : src.threadErr
  · rw [if_pos h]
    simpa using hlog
  · rw [if_neg h]
    simpa using hlog

/-- C8: a video absent from the enricher's detail mapping keeps
zero/empty defaults, and every exported row's denormalized video
fields equal exactly the fields of the Video record matching its
`video_id`. -/
theorem row_decoration_matches_video (searchErr : Bool)
    (items : List SearchItem) (details : String → Option VideoDetail)
    (csrc : String → VideoCommentSource)
    (hnd : ((search_videos searchErr items details).map Video.video_id).Nodup) :
    (∀ v ∈ search_videos searchErr items details,
      v.detail = details v.video_id ∧
      (details v.video_id = none →
        videoFields v = (v.relevance_rank, v.title, v.channel,
          v.video_published_at, 0, 0, 0, 0, ""))) ∧
    (∀ r ∈ allRows csrc (search_videos searchErr items details),
      ∀ v ∈ search_videos searchErr items details,
        v.video_id = r.video_id → rowVideoFields r = videoFields v) := by
  constructor
  · intro v hv
    have hd := search_videos_detail searchErr items details v hv
    refine ⟨hd, fun hnone => ?_⟩
    simp [videoFields, hd, hnone]
  · intro r hr v hv hid
    rw [allRows_eq] at hr
    obtain ⟨w, hw, hrw⟩ := List.mem_flatMap.mp hr
    obtain ⟨hrid, hrfields⟩ := videoRows_fields csrc w r hrw
    have hvw : v = w :=
      List.inj_on_of_nodup_map hnd hv hw (by rw [hid, hrid])
    rw [hvw]
    exact hrfields

theorem row_decoration_matches_video_witness :
    (videoFields vW2 = (2, "T2", "Ch2", "p2", 0, 0, 0, 0, "")) ∧
    rowVideoFields (decorate vW1 (topComment "v1" itemC2))
      = videoFields vW1 :=
  ⟨((row_decoration_matches_video false itemsW detailsW csrcW
      (by decide)).1 vW2 (by decide)).2 (by decide),
   (row_decoration_matches_video false itemsW detailsW csrcW
      (by decide)).2 (decorate vW1 (topComment "v1" itemC2)) (by decide)
      vW1 (by decide) (by decide)⟩

/-- C9: the run ends early with `noVideos` when discovery yields no
videos, with `noComments` when no comment row was collected, and an
export is produced exactly when at least one row was collected — in
which case its rows are the non-empty accumulator. -/
theorem total_failure_no_export (searchErr : Bool) (items : List SearchItem)
    (details : String → Option VideoDetail)
    (csrc : String → VideoCommentSource) :
    (search_videos searchErr items details = [] →
      scrape_comments searchErr items details csrc = .noVideos) ∧
    (search_videos searchErr items details ≠ [] →
      allRows csrc (search_videos searchErr items details) = [] →
      scrape_comments searchErr items details csrc = .noComments) ∧
    (∀ rows, scrape_comments searchErr items details csrc = .exported rows →
      rows ≠ []) ∧
    (search_videos searchErr items details ≠ [] →
      allRows csrc (search_videos searchErr items details) ≠ [] →
      scrape_comments searchErr items details csrc
        = .exported (allRows csrc (search_videos searchErr items details))) := by
  refine ⟨?_, ?_, ?_, ?_⟩
  · intro h
    simp [scrape_comments, h]
  · intro h1 h2
    simp [scrape_comments, h1, h2]
  · intro rows h hrows
    subst hrows
    unfold scrape_comments at h
    by_cases h1 : (search_videos searchErr items details).isEmpty
    · simp [h1] at h
    · by_cases h2 : (allRows csrc (search_videos searchErr items details)).isEmpty
      · simp [h1, h2] at h
      · simp [h1, h2] at h
        rw [List.isEmpty_iff] at h2
        exact h2 h
  · intro h1 h2
    simp [scrape_comments, h1, h2]

theorem total_failure_no_export_witness :
    scrape_comments true [] (fun _ => none) csrc1 = .noVideos ∧
    scrape_comments false items1 (fun _ => none) (fun _ => srcC2)
      = .noComments ∧
    scrape_comments false itemsW detailsW csrcW
      = .exported (allRows csrcW (search_videos false itemsW detailsW)) :=
  ⟨(total_failure_no_export true [] (fun _ => none) csrc1).1 (by decide),
   (total_failure_no_export false items1 (fun _ => none)
      (fun _ => srcC2)).2.1 (by decide) (by decide),
   (total_failure_no_export false itemsW detailsW csrcW).2.2.2
      (by decide) (by decide)⟩

/-- C10: the duration parser is total — every input yields a
(non-negative) natural result; inputs not beginning with `PT` yield 0,
and characters after a full `PT..H..M..S` token are ignored rather
than rejected. -/
theorem duration_parser_total :
    (∀ s : String, (∀ r, s.data ≠ 'P' :: 'T' :: r) → parse_duration s = 0) ∧
    (∀ h m s rest, goodDigits h → goodDigits m → goodDigits s →
      parse_duration (String.mk
          ('P' :: 'T' :: (h ++ 'H' :: (m ++ 'M' :: (s ++ 'S' :: rest)))))
        = digitsToNat h * 3600 + digitsToNat m * 60 + digitsToNat s) ∧
    parse_duration "PTabc" = 0 ∧ parse_duration "PT2M30" = 120 :=
  ⟨fun s hs => parseDurationChars_no_PT s.data hs,
   fun h m s rest h1 h2 h3 => parseDurationChars_trailing h m s rest h1 h2 h3,
   by decide, by decide⟩

theorem duration_parser_total_witness :
    parse_duration "video" = 0 ∧
    parse_duration (String.mk ('P' :: 'T' ::
        (['1'] ++ 'H' :: (['2'] ++ 'M' :: (['3'] ++ 'S' :: ['x', 'y'])))))
      = digitsToNat ['1'] * 3600 + digitsToNat ['2'] * 60
        + digitsToNat ['3'] :=
  ⟨duration_parser_total.1 "video" (by
      intro r h
      have hd : "video".data = ['v', 'i', 'd', 'e', 'o'] := rfl
      rw [hd] at h
      injection h with h1 _
      exact absurd h1 (by decide)),
   duration_parser_total.2.1 ['1'] ['2'] ['3'] ['x', 'y']
     ⟨by decide, by decide⟩ ⟨by decide, by decide⟩ ⟨by decide, by decide⟩⟩
